import Mathlib

/-!
Shallow embedding of the concurrency/consistency core of the trading-ledger
repository: the order lifecycle manager (`core/order_lifecycle_manager.py`),
the accounting engine (`core/accounting_engine.py`), the position table
(`tables/position_table.py`), the consistency checker
(`core/consistency_checker.py`) and the event engine (`core/event_engine.py`).

Python dicts are modelled as insertion-ordered association lists, floats as
rationals, raised exceptions as `Except`/`Option` error values.  Wall-clock
fields (`create_time`, `update_time`, ...) are omitted: no verified property
reads them.  Where an exception propagates out of a mutating method after some
mutations have already happened (Python mutates in place), the operation
returns the partially-mutated state together with the error, mirroring the
source semantics.
-/

namespace TradeCore

/-- Association-list lookup, modelling Python `dict.get` /  `d[k]`. -/
def alistLookup {α : Type} (l : List (String × α)) (k : String) : Option α :=
  (l.find? (fun p => p.1 == k)).map (fun p => p.2)

/-- Association-list store, modelling Python `d[k] = v`: replaces the binding
in place when the key exists (dicts keep insertion order), appends otherwise. -/
def alistSet {α : Type} (l : List (String × α)) (k : String) (v : α) : List (String × α) :=
  if l.any (fun p => p.1 == k) then
    l.map (fun p => if p.1 == k then (k, v) else p)
  else
    l ++ [(k, v)]

/-- Python `list.remove` guarded by a membership test: removes the first
occurrence, no-op when absent. -/
def removeFirst (l : List String) (x : String) : List String :=
  match l with
  | [] => []
  | y :: ys => if y == x then ys else y :: removeFirst ys x

/-! ## Order lifecycle manager (`core/order_lifecycle_manager.py`) -/

/-- `OrderStatus` enum of `order_lifecycle_manager.py`. -/
inductive OrderStatus where
  | submitting
  | notTraded
  | partTraded
  | allTraded
  | cancelling
  | cancelled
  | rejected
  deriving DecidableEq, Repr

/-- The `.value` strings of the Python enum. -/
def OrderStatus.value : OrderStatus → String
  | .submitting => "提交中"
  | .notTraded => "未成交"
  | .partTraded => "部分成交"
  | .allTraded => "全部成交"
  | .cancelling => "撤销中"
  | .cancelled => "已撤销"
  | .rejected => "已拒绝"

/-- A trade record as built inside `match_trade` (the `match_type` field is the
constant `"AUTO"` and is omitted). -/
structure Trade where
  trade_id : String
  order_id : String
  symbol : String
  price : Rat
  volume : Int
  trade_time : Nat
  deriving DecidableEq, Repr

/-- The order dict built by `create_order` (wall-clock fields omitted; the
`status` field stores the enum `.value` string exactly as the source does). -/
structure Order where
  order_id : String
  symbol : String
  direction : String
  price : Rat
  volume : Int
  traded_volume : Int
  order_type : String
  status : String
  strategy : String
  trade_records : List Trade
  cancel_requests : Int
  cancel_reason : String
  deriving DecidableEq, Repr

/-- State of `OrderLifecycleManager`. -/
structure OrderLifecycleManager where
  orders : List (String × Order)
  order_queue : List String
  trade_matching : List (String × List String)
  max_queue_size : Nat
  deriving DecidableEq, Repr

/-- A fresh manager, as built by `OrderLifecycleManager.__init__`. -/
def OrderLifecycleManager.empty : OrderLifecycleManager :=
  { orders := [], order_queue := [], trade_matching := [], max_queue_size := 1000 }

/-- `_is_valid_status_transition`: the transition table, keyed by the stored
status strings; an unknown key yields the empty successor list. -/
def is_valid_status_transition (fromStatus toStatus : String) : Bool :=
  let successors : List String :=
    if fromStatus == OrderStatus.submitting.value then
      [OrderStatus.notTraded.value, OrderStatus.cancelled.value, OrderStatus.rejected.value]
    else if fromStatus == OrderStatus.notTraded.value then
      [OrderStatus.partTraded.value, OrderStatus.allTraded.value,
       OrderStatus.cancelling.value, OrderStatus.cancelled.value]
    else if fromStatus == OrderStatus.partTraded.value then
      [OrderStatus.allTraded.value, OrderStatus.cancelling.value, OrderStatus.cancelled.value]
    else if fromStatus == OrderStatus.cancelling.value then
      [OrderStatus.cancelled.value]
    else
      []
  successors.contains toStatus

/-- `_can_match_order`. -/
def can_match_order (order : Order) (price : Rat) : Bool :=
  if order.status != OrderStatus.notTraded.value && order.status != OrderStatus.partTraded.value then
    false
  else if order.order_type == "LIMIT" then
    if order.direction == "BUY" || order.direction == "COVER" then
      decide (price ≤ order.price)
    else
      decide (price ≥ order.price)
  else
    true

/-- `_generate_order_id` (the millisecond timestamp is an explicit parameter). -/
def generate_order_id (t : Nat) (numOrders : Nat) : String :=
  "ORDER_" ++ toString t ++ "_" ++ toString numOrders

/-- `_generate_trade_id`. -/
def generate_trade_id (t : Nat) : String :=
  "TRADE_" ++ toString t

/-- `_add_to_queue`. -/
def add_to_queue (m : OrderLifecycleManager) (oid : String) : OrderLifecycleManager :=
  if m.order_queue.length < m.max_queue_size then
    { m with order_queue := m.order_queue ++ [oid] }
  else
    m

/-- `_remove_from_queue`. -/
def remove_from_queue (m : OrderLifecycleManager) (oid : String) : OrderLifecycleManager :=
  { m with order_queue := removeFirst m.order_queue oid }

/-- `_add_to_matching`. -/
def add_to_matching (m : OrderLifecycleManager) (symbol oid : String) : OrderLifecycleManager :=
  match alistLookup m.trade_matching symbol with
  | none => { m with trade_matching := m.trade_matching ++ [(symbol, [oid])] }
  | some ids => { m with trade_matching := alistSet m.trade_matching symbol (ids ++ [oid]) }

/-- `_remove_from_matching`. -/
def remove_from_matching (m : OrderLifecycleManager) (symbol oid : String) : OrderLifecycleManager :=
  match alistLookup m.trade_matching symbol with
  | none => m
  | some ids => { m with trade_matching := alistSet m.trade_matching symbol (removeFirst ids oid) }

/-- `create_order`; `t` stands for the `datetime.now()` millisecond timestamp
used by `_generate_order_id`. Returns the new state and the order id. -/
def create_order (m : OrderLifecycleManager) (symbol direction : String) (price : Rat)
    (volume : Int) (strategy : String) (order_type : String) (t : Nat) :
    OrderLifecycleManager × String :=
  let oid := generate_order_id t m.orders.length
  let od : Order :=
    { order_id := oid, symbol := symbol, direction := direction, price := price,
      volume := volume, traded_volume := 0, order_type := order_type,
      status := OrderStatus.submitting.value, strategy := strategy,
      trade_records := [], cancel_requests := 0, cancel_reason := "" }
  let m1 := { m with orders := alistSet m.orders oid od }
  let m2 := add_to_queue m1 oid
  let m3 := add_to_matching m2 symbol oid
  (m3, oid)

/-- `update_order_status`.  Raised `ValueError`s become `Except.error`; both
error paths fire before any mutation, so the state component is then the input
state unchanged. -/
def update_order_status (m : OrderLifecycleManager) (oid : String) (status : OrderStatus)
    (traded_volume : Int) (trade_data : Option Trade) :
    OrderLifecycleManager × Except String Unit :=
  match alistLookup m.orders oid with
  | none => (m, Except.error ("订单不存在: " ++ oid))
  | some order =>
    if is_valid_status_transition order.status status.value then
      let order1 := { order with status := status.value }
      let order2 :=
        if traded_volume > 0 then
          { order1 with traded_volume := order1.traded_volume + traded_volume }
        else order1
      let order3 :=
        match trade_data with
        | some td => { order2 with trade_records := order2.trade_records ++ [td] }
        | none => order2
      let m1 := { m with orders := alistSet m.orders oid order3 }
      if status = .allTraded ∨ status = .cancelled ∨ status = .rejected then
        let m2 := remove_from_queue m1 oid
        let m3 := remove_from_matching m2 order.symbol oid
        (m3, Except.ok ())
      else
        (m1, Except.ok ())
    else
      (m, Except.error ("无效状态转换: " ++ order.status ++ " -> " ++ status.value))

/-- `cancel_order`.  Returns `Except.ok` of the boolean result, or the error
propagated from `update_order_status`; on that error path the increments of
`cancel_requests`/`cancel_reason` have already been written (Python mutates the
order dict in place before the call that raises). -/
def cancel_order (m : OrderLifecycleManager) (oid reason : String) :
    OrderLifecycleManager × Except String Bool :=
  match alistLookup m.orders oid with
  | none => (m, Except.ok false)
  | some order =>
    if order.status == OrderStatus.allTraded.value
        || order.status == OrderStatus.cancelled.value
        || order.status == OrderStatus.rejected.value then
      (m, Except.ok false)
    else
      let order1 := { order with cancel_requests := order.cancel_requests + 1,
                                 cancel_reason := reason }
      let m1 := { m with orders := alistSet m.orders oid order1 }
      let target : OrderStatus :=
        if order.status == OrderStatus.submitting.value then .cancelled else .cancelling
      match update_order_status m1 oid target 0 none with
      | (m2, Except.ok _) => (m2, Except.ok true)
      | (m2, Except.error e) => (m2, Except.error e)

/-- The body of the `for order_id in order_ids` loop of `match_trade`.

`order_ids` in the source is the live `self.trade_matching[symbol]` list, not
a copy: a fill that completes an order removes it from that very list during
iteration, so the Python iterator (an advancing index) then skips the element
that slid into the removed slot.  The loop is therefore modelled with an index
`i` into the list as re-read from the current state each iteration.  `fuel`
makes the recursion structural; since the list never grows during the loop,
`fuel` = initial list length makes the fuel-exhaustion return coincide with
the normal end-of-list return, so the model equals the unbounded loop.
Returns the state, the `matched_orders` accumulator and `none`, or the state
at raise time, the trades matched so far and the propagated error. -/
def matchLoop (symbol : String) (price : Rat) (trade_time : Nat) :
    Nat → OrderLifecycleManager → Nat → Int → List Trade →
    OrderLifecycleManager × List Trade × Option String
  | 0, m, _, _, acc => (m, acc, none)
  | Nat.succ fuel, m, i, remaining, acc =>
    let ids := (alistLookup m.trade_matching symbol).getD []
    if h : i < ids.length then
      if remaining ≤ 0 then (m, acc, none)
      else
        let oid := ids.get ⟨i, h⟩
        match alistLookup m.orders oid with
        | none => (m, acc, some ("KeyError: " ++ oid))
        | some order =>
          if can_match_order order price then
            let matched := min remaining (order.volume - order.traded_volume)
            if matched > 0 then
              let td : Trade :=
                { trade_id := generate_trade_id trade_time, order_id := oid,
                  symbol := symbol, price := price, volume := matched,
                  trade_time := trade_time }
              let new_traded := order.traded_volume + matched
              let new_status : OrderStatus :=
                if new_traded = order.volume then .allTraded else .partTraded
              match update_order_status m oid new_status matched (some td) with
              | (m1, Except.ok _) =>
                matchLoop symbol price trade_time fuel m1 (i + 1) (remaining - matched)
                  (acc ++ [td])
              | (m1, Except.error e) => (m1, acc, some e)
            else
              matchLoop symbol price trade_time fuel m (i + 1) remaining acc
          else
            matchLoop symbol price trade_time fuel m (i + 1) remaining acc
    else (m, acc, none)

/-- `match_trade`; `trade_time` is the explicit trade timestamp. -/
def match_trade (m : OrderLifecycleManager) (symbol : String) (price : Rat)
    (volume : Int) (trade_time : Nat) :
    OrderLifecycleManager × List Trade × Option String :=
  let ids := (alistLookup m.trade_matching symbol).getD []
  matchLoop symbol price trade_time ids.length m 0 volume []

/-! ## Accounting engine (`core/accounting_engine.py`) -/

/-- The account dict consumed by `update_account_equity` (fields read through
`.get(..., 0)` in the source; `update_time` omitted). -/
structure AccountData where
  balance : Rat
  available : Rat
  margin : Rat
  commission : Rat
  close_profit : Rat
  position_profit : Rat
  deriving DecidableEq, Repr

/-- `AccountingEngine.update_account_equity`: always returns an updated copy,
with no invariant check and no error path. -/
def update_account_equity (a : AccountData) (close_pnl position_pnl commission : Rat) :
    AccountData :=
  let new_balance := a.balance + close_pnl - commission
  { a with
    commission := a.commission + commission,
    close_profit := a.close_profit + close_pnl,
    position_profit := position_pnl,
    balance := new_balance,
    available := new_balance - a.margin }

/-! ## Position table (`tables/position_table.py`) -/

/-- The position dict built by `update_position` (`update_time` and `trade_id`
bookkeeping omitted; no verified property reads them). -/
structure PositionData where
  strategy : String
  symbol : String
  direction : String
  volume : Int
  price : Rat
  float_pnl : Rat
  pnl : Rat
  deriving DecidableEq, Repr

/-- `PositionTable` state (no adapter, no sync service, as in the default
`initialize`). -/
structure PositionTable where
  positions : List (String × PositionData)
  deriving DecidableEq, Repr

def PositionTable.empty : PositionTable := { positions := [] }

/-- `_get_position_key`. -/
def position_key (symbol strategy : String) : String :=
  symbol ++ "_" ++ strategy

/-- `_get_opposite_direction`. -/
def get_opposite_direction (d : String) : String :=
  if d == "BUY" then "SELL"
  else if d == "SELL" then "BUY"
  else if d == "SHORT" then "COVER"
  else if d == "COVER" then "SHORT"
  else d

/-- The direction check of `validate_data` (the required-fields list is empty
in the default table config, and the type checks are statically true here). -/
def validate_direction (d : String) : Bool :=
  ["BUY", "SELL", "SHORT", "COVER", ""].contains d

/-- `PositionTable.save_data` restricted to the fields the model carries:
validation, then delete-on-zero-volume or store. -/
def save_data (pt : PositionTable) (data : PositionData) : PositionTable × Bool :=
  if !validate_direction data.direction then
    (pt, false)
  else if data.symbol == "" then
    (pt, false)
  else
    let key := position_key data.symbol data.strategy
    if data.volume = 0 then
      (⟨(pt.positions.filter (fun p => p.1 != key))⟩, true)
    else
      (⟨alistSet pt.positions key data⟩, true)

/-- `PositionTable.update_position` (parameter type checks are statically
satisfied; the direction-validity check, the new-volume/new-direction case
split and the `save_data` call follow the source line by line). -/
def update_position (pt : PositionTable) (strategy symbol direction : String)
    (price : Rat) (volume : Int) : PositionTable × Bool :=
  if !(["BUY", "SELL", "SHORT", "COVER"].contains direction) then
    (pt, false)
  else
    let key := position_key symbol strategy
    let cur := alistLookup pt.positions key
    let nv_nd : Int × String :=
      match cur with
      | some cp =>
        let current_volume := cp.volume
        let current_direction := cp.direction
        if direction == "BUY" || direction == "SHORT" then
          if current_direction == direction then
            (current_volume + volume, direction)
          else if current_direction == "" || current_volume = 0 then
            (volume, direction)
          else
            if volume > current_volume then
              (volume - current_volume, direction)
            else
              (0, "")
        else
          if current_direction == get_opposite_direction direction then
            let nv := max 0 (current_volume - volume)
            (nv, if nv > 0 then current_direction else "")
          else
            (current_volume, current_direction)
      | none =>
        if direction == "BUY" || direction == "SHORT" then
          (volume, direction)
        else
          (0, "")
    let new_volume := nv_nd.1
    let new_direction := nv_nd.2
    let data : PositionData :=
      { strategy := strategy, symbol := symbol, direction := new_direction,
        volume := new_volume,
        price := if new_volume > 0 then price
                 else (cur.map (fun cp => cp.price)).getD price,
        float_pnl := (cur.map (fun cp => cp.float_pnl)).getD 0,
        pnl := (cur.map (fun cp => cp.pnl)).getD 0 }
    save_data pt data

/-! ## Consistency checker (`core/consistency_checker.py`) -/

/-- `ConsistencyStatus` enum. -/
inductive ConsistencyStatus where
  | consistent
  | inconsistent
  | partConsistent
  | checkFailed
  deriving DecidableEq, Repr, Fintype

/-- The `summary` counters of the report. -/
structure CheckSummary where
  total_checks : Nat
  passed_checks : Nat
  failed_checks : Nat
  deriving DecidableEq, Repr

/-- `_update_summary`: a `CONSISTENT` category counts as passed, an
`INCONSISTENT` one as failed, anything else as neither. -/
def update_summary (s : CheckSummary) (st : ConsistencyStatus) : CheckSummary :=
  let s1 := { s with total_checks := s.total_checks + 1 }
  if st = .consistent then { s1 with passed_checks := s1.passed_checks + 1 }
  else if st = .inconsistent then { s1 with failed_checks := s1.failed_checks + 1 }
  else s1

/-- The overall-status computation at the end of `_perform_all_checks`, on the
four category results (account, orders, positions, trades). -/
def overall_status (account orders positions trades : ConsistencyStatus) : ConsistencyStatus :=
  let s := update_summary (update_summary (update_summary
             (update_summary ⟨0, 0, 0⟩ account) orders) positions) trades
  if s.failed_checks > 0 then .inconsistent
  else if s.passed_checks = s.total_checks then .consistent
  else .partConsistent

/-! ## Event engine (`core/event_engine.py`) -/

/-- A queue entry as put by `EventEngine.put`: `(priority.value, self._timer)`
(the event payload itself never takes part in the ordering because the `_timer`
components are pairwise distinct). -/
abbrev QueueEntry := Nat × Nat

/-- The priority-queue-relevant state of `EventEngine`: the multiset of queued
entries (kept in arrival order) and the `_timer` counter. -/
structure EngineQueue where
  entries : List QueueEntry
  timer : Nat
  deriving DecidableEq, Repr

def EngineQueue.empty : EngineQueue := { entries := [], timer := 0 }

/-- `EventEngine.put` with a given priority value: enqueues
`(priority, timer)` and increments the timer by one. -/
def enginePut (q : EngineQueue) (priority : Nat) : EngineQueue :=
  { entries := q.entries ++ [(priority, q.timer)], timer := q.timer + 1 }

/-- A sequence of `put` calls. -/
def enginePutAll (q : EngineQueue) (ps : List Nat) : EngineQueue :=
  ps.foldl enginePut q

/-- The lexicographic comparison `(priority, sequence)` used by Python's
`PriorityQueue` on the tuples put by the engine. -/
def entryLe (a b : QueueEntry) : Bool :=
  Nat.blt a.1 b.1 || (a.1 == b.1 && Nat.ble a.2 b.2)

/-- `queue.get`: extract the least entry (leftmost among lexicographic ties,
which cannot occur for engine-generated entries) and the remaining entries. -/
def extractMin (x : QueueEntry) : List QueueEntry → QueueEntry × List QueueEntry
  | [] => (x, [])
  | y :: ys =>
    let r := extractMin y ys
    if entryLe x r.1 then (x, y :: ys) else (r.1, x :: r.2)

theorem extractMin_length (x : QueueEntry) (l : List QueueEntry) :
    (extractMin x l).2.length = l.length := by
  induction l generalizing x with
  | nil => rfl
  | cons y ys ih =>
    simp only [extractMin]
    split
    · rfl
    · simp [ih y]

/-- Repeatedly popping the queue until it drains: the dequeue order. -/
def drain : List QueueEntry → List QueueEntry
  | [] => []
  | x :: xs =>
    let r := extractMin x xs
    r.1 :: drain r.2
termination_by l => l.length
decreasing_by
  simp [extractMin_length]

/-- Position of an entry in a dequeue sequence (first occurrence). -/
def posIn : List QueueEntry → QueueEntry → Nat
  | [], _ => 0
  | x :: xs, e => if x = e then 0 else posIn xs e + 1

/-- The per-handler statistics counters of `EventEngine`. -/
structure EventStats where
  processed_events : Nat
  failed_events : Nat
  deriving DecidableEq, Repr

/-- An event is its type tag plus an opaque payload id. -/
structure EventRec where
  type : String
  payload : Nat
  deriving DecidableEq, Repr

/-- A handler body: either returns normally or raises (the raised message). -/
abbrev Handler := EventRec → Except String Unit

/-- One iteration of the handler loop in `_process_event`: a normal return
bumps `processed_events`, a caught exception bumps `failed_events`. -/
def tallyHandler (st : EventStats) (r : Except String Unit) : EventStats :=
  match r with
  | Except.ok _ => { st with processed_events := st.processed_events + 1 }
  | Except.error _ => { st with failed_events := st.failed_events + 1 }

/-- The `for handler in self._handlers[event_type]` loop of `_process_event`:
every handler is called in registration order, each outcome is tallied, and a
failure never stops the loop.  Returns the final counters and the per-handler
outcomes in invocation order. -/
def dispatchHandlers (ev : EventRec) : List Handler → EventStats →
    EventStats × List (Except String Unit)
  | [], st => (st, [])
  | h :: rest, st =>
    let r := h ev
    let res := dispatchHandlers ev rest (tallyHandler st r)
    (res.1, r :: res.2)

/-- `_process_event`: look up the handlers registered for the event's type
(no registration means nothing runs) and dispatch. -/
def process_event (registry : List (String × List Handler)) (ev : EventRec)
    (st : EventStats) : EventStats × List (Except String Unit) :=
  match alistLookup registry ev.type with
  | none => (st, [])
  | some hs => dispatchHandlers ev hs st

/-- The consumer loop `_run` restricted to a finite event list: each event is
processed in turn; `process_event` is total, so no handler failure ever
escapes to the loop or to a publisher. -/
def run_loop (registry : List (String × List Handler)) (evs : List EventRec)
    (st : EventStats) : EventStats :=
  evs.foldl (fun s e => (process_event registry e s).1) st

/-- Did this handler body return normally? -/
def isOkResult : Except String Unit → Bool
  | Except.ok _ => true
  | Except.error _ => false

/-! ## Projection helpers and concrete scenario states -/

/-- Projection: the success payload of an `Except`, when any. -/
def exceptOk? {ε α : Type} : Except ε α → Option α
  | Except.ok a => some a
  | Except.error _ => none

/-- Projection: the error payload of an `Except`, when any. -/
def exceptErr? {ε α : Type} : Except ε α → Option ε
  | Except.ok _ => none
  | Except.error e => some e

/-- The propositional form of the queue ordering. -/
def entryR (a b : QueueEntry) : Prop := entryLe a b = true

instance : IsAntisymm QueueEntry entryR where
  antisymm a b hab hba := by
    simp only [entryR, entryLe, Bool.or_eq_true, Bool.and_eq_true, Nat.blt_eq,
      beq_iff_eq, Nat.ble_eq] at hab hba
    have h1 : a.1 = b.1 := by omega
    have h2 : a.2 = b.2 := by omega
    exact Prod.ext h1 h2

/-- A one-order helper record used by concrete witnesses. -/
def mkOrder (status : String) : Order :=
  { order_id := "O1", symbol := "X", direction := "BUY", price := 100, volume := 10,
    traded_volume := 0, order_type := "LIMIT", status := status, strategy := "s",
    trade_records := [], cancel_requests := 0, cancel_reason := "" }

/-- A manager holding exactly the order `O1`. -/
def mgrWith (o : Order) : OrderLifecycleManager :=
  { orders := [("O1", o)], order_queue := ["O1"], trade_matching := [("X", ["O1"])],
    max_queue_size := 1000 }

/-- Scenario: a fresh Buy-Limit order for 10 units at price 100 on symbol X. -/
def demoM1 : OrderLifecycleManager :=
  (create_order OrderLifecycleManager.empty "X" "BUY" 100 10 "s" "LIMIT" 0).1

/-- The same order confirmed (`SUBMITTING → NOTTRADED`). -/
def demoM2 : OrderLifecycleManager :=
  (update_order_status demoM1 "ORDER_0_0" OrderStatus.notTraded 0 none).1

/-- First incoming tick: 3 units at price 99 (a partial fill). -/
def demoMatch1 : OrderLifecycleManager × List Trade × Option String :=
  match_trade demoM2 "X" 99 3 1

/-- Second incoming tick: 3 further units at price 99 (a second partial fill). -/
def demoMatch2 : OrderLifecycleManager × List Trade × Option String :=
  match_trade demoMatch1.1 "X" 99 3 2

/-- First cancellation request against the confirmed order. -/
def demoCancel1 : OrderLifecycleManager × Except String Bool :=
  cancel_order demoM2 "ORDER_0_0" "first"

/-- Second cancellation request against the same order. -/
def demoCancel2 : OrderLifecycleManager × Except String Bool :=
  cancel_order demoCancel1.1 "ORDER_0_0" "second"

/-- The position table after Buy 1 @ 100 on symbol X. -/
def demoPos1 : PositionTable :=
  (update_position PositionTable.empty "s" "X" "BUY" 100 1).1

/-- ... and after a further Buy 1 @ 200 on the same symbol. -/
def demoPos2 : PositionTable :=
  (update_position demoPos1 "s" "X" "BUY" 200 1).1

/-- An account state violating the margin invariant (the code never rejects
such a state, so every operation accepts it). -/
def badAccount : AccountData :=
  { balance := 100, available := 90, margin := -10, commission := 0,
    close_profit := 0, position_profit := 0 }

/-- The initial account of the spec scenario. -/
def demoAccount : AccountData :=
  { balance := 1000000, available := 1000000, margin := 0, commission := 0,
    close_profit := 0, position_profit := 0 }

/-!
# Theorems
-/

theorem alistLookup_cons {α : Type} (p : String × α) (ps : List (String × α)) (k : String) :
    alistLookup (p :: ps) k = if p.1 == k then some p.2 else alistLookup ps k := by
  cases h : p.1 == k <;> simp [alistLookup, List.find?_cons, h]

theorem lookup_setMap_self {α : Type} (l : List (String × α)) (k : String) (v : α)
    (h : l.any (fun p => p.1 == k) = true) :
    alistLookup (l.map fun p => if p.1 == k then (k, v) else p) k = some v := by
  induction l with
  | nil => simp at h
  | cons p ps ih =>
    simp only [List.any_cons, Bool.or_eq_true] at h
    cases hpk : (p.1 == k) with
    | true =>
      have hp1 : p.1 = k := by simpa using hpk
      simp [alistLookup_cons, hp1]
    | false =>
      have h' : ps.any (fun p => p.1 == k) = true := by
        rcases h with h | h
        · rw [hpk] at h; exact absurd h (by simp)
        · exact h
      have hp1 : ¬(p.1 = k) := by simpa using hpk
      simp only [beq_iff_eq] at ih
      simp [alistLookup_cons, hp1, ih h']

theorem lookup_append_self {α : Type} (l : List (String × α)) (k : String) (v : α)
    (h : l.any (fun p => p.1 == k) = false) :
    alistLookup (l ++ [(k, v)]) k = some v := by
  induction l with
  | nil => simp [alistLookup_cons]
  | cons p ps ih =>
    simp only [List.any_cons, Bool.or_eq_false_iff] at h
    have hp1 : ¬(p.1 = k) := by simpa using h.1
    simp [List.cons_append, alistLookup_cons, hp1, ih h.2]

/-- `d[k] = v` makes a later `d[k]` read `v`. -/
theorem alistLookup_alistSet_self {α : Type} (l : List (String × α)) (k : String) (v : α) :
    alistLookup (alistSet l k v) k = some v := by
  unfold alistSet
  cases h : l.any (fun p => p.1 == k) with
  | true => simpa [h] using lookup_setMap_self l k v h
  | false => simpa [h] using lookup_append_self l k v h

theorem lookup_setMap_ne {α : Type} (l : List (String × α)) (k k' : String) (v : α)
    (h : k' ≠ k) :
    alistLookup (l.map fun p => if p.1 == k then (k, v) else p) k' = alistLookup l k' := by
  have hkk : ¬(k = k') := fun he => h he.symm
  induction l with
  | nil => rfl
  | cons p ps ih =>
    simp only [beq_iff_eq] at ih
    cases hpk : (p.1 == k) with
    | true =>
      have hp1 : p.1 = k := by simpa using hpk
      simp [alistLookup_cons, hp1, hkk, h, ih]
    | false =>
      have hp1 : ¬(p.1 = k) := by simpa using hpk
      by_cases hpk' : p.1 = k'
      · simp [alistLookup_cons, hp1, hpk', h, hkk]
      · simp [alistLookup_cons, hp1, hpk', ih]

theorem lookup_append_ne {α : Type} (l : List (String × α)) (k k' : String) (v : α)
    (h : k' ≠ k) :
    alistLookup (l ++ [(k, v)]) k' = alistLookup l k' := by
  have hkk : ¬(k = k') := fun he => h he.symm
  induction l with
  | nil => simp [alistLookup_cons, hkk, alistLookup]
  | cons p ps ih =>
    by_cases hpk' : p.1 = k'
    · simp [List.cons_append, alistLookup_cons, hpk']
    · simp [List.cons_append, alistLookup_cons, hpk', ih]

/-- `d[k] = v` leaves every other key's binding unchanged. -/
theorem alistLookup_alistSet_ne {α : Type} (l : List (String × α)) (k k' : String) (v : α)
    (h : k' ≠ k) :
    alistLookup (alistSet l k v) k' = alistLookup l k' := by
  unfold alistSet
  cases hany : l.any (fun p => p.1 == k) with
  | true => simpa [hany] using lookup_setMap_ne l k k' v h
  | false => simpa [hany] using lookup_append_ne l k k' v h

/-- C2: `update_order_status` on an existing order whose (current, requested)
status pair is not in the transition table returns the invalid-transition error
and the manager state — hence the order record — completely unchanged (both
error paths fire before any mutation). -/
theorem C2_invalid_transition_rejected (m : OrderLifecycleManager) (oid : String)
    (status : OrderStatus) (tv : Int) (td : Option Trade) (o : Order)
    (hlk : alistLookup m.orders oid = some o)
    (hinv : is_valid_status_transition o.status status.value = false) :
    update_order_status m oid status tv td
      = (m, Except.error ("无效状态转换: " ++ o.status ++ " -> " ++ status.value)) := by
  unfold update_order_status
  rw [hlk]
  simp [hinv]

/-- Witness for C2: requesting 已撤销 → 未成交 (Cancelled → NotTraded) on a
concrete one-order manager fails and leaves the manager unchanged. -/
theorem C2_invalid_transition_rejected_witness :
    alistLookup (mgrWith (mkOrder OrderStatus.cancelled.value)).orders "O1"
        = some (mkOrder OrderStatus.cancelled.value)
    ∧ is_valid_status_transition (mkOrder OrderStatus.cancelled.value).status
        OrderStatus.notTraded.value = false
    ∧ update_order_status (mgrWith (mkOrder OrderStatus.cancelled.value)) "O1"
        OrderStatus.notTraded 0 none
      = (mgrWith (mkOrder OrderStatus.cancelled.value),
         Except.error ("无效状态转换: " ++ (mkOrder OrderStatus.cancelled.value).status
           ++ " -> " ++ OrderStatus.notTraded.value)) :=
  ⟨by decide, by decide,
   C2_invalid_transition_rejected _ _ _ _ _ _ (by decide) (by decide)⟩

/-- C4 amended: a same-direction Buy fill on an existing Buy position stores
the latest fill price as the position price (the source assigns
`price if new_volume > 0 else ...`, computing no volume-weighted average) and
accumulates the volume. -/
theorem C4_latest_price_amended (pt : PositionTable) (strat sym : String) (price : Rat)
    (volume : Int) (cp : PositionData)
    (hlk : alistLookup pt.positions (position_key sym strat) = some cp)
    (hdir : cp.direction = "BUY") (hcv : 0 ≤ cp.volume) (hv : 0 < volume) (hs : sym ≠ "") :
    (update_position pt strat sym "BUY" price volume).2 = true
    ∧ alistLookup (update_position pt strat sym "BUY" price volume).1.positions
        (position_key sym strat)
      = some { strategy := strat, symbol := sym, direction := "BUY",
               volume := cp.volume + volume, price := price,
               float_pnl := cp.float_pnl, pnl := cp.pnl } := by
  have hsym : (sym == "") = false := by simpa using hs
  have hnz : ¬(cp.volume + volume = 0) := by omega
  have hpos : (0 : Int) < cp.volume + volume := by omega
  simp only [update_position, hlk]
  simp only [hdir, save_data, validate_direction]
  simp [hsym, hnz, hpos, alistLookup_alistSet_self, position_key]

/-- Witness for C4 amended: Buy 1 @ 100 then Buy 1 @ 200 ends with stored
price 200 and volume 2. -/
theorem C4_latest_price_amended_witness :
    alistLookup demoPos1.positions (position_key "X" "s")
        = some { strategy := "s", symbol := "X", direction := "BUY", volume := 1,
                 price := 100, float_pnl := 0, pnl := 0 }
    ∧ ((update_position demoPos1 "s" "X" "BUY" 200 1).2 = true
      ∧ alistLookup (update_position demoPos1 "s" "X" "BUY" 200 1).1.positions
          (position_key "X" "s")
        = some { strategy := "s", symbol := "X", direction := "BUY", volume := 1 + 1,
                 price := 200, float_pnl := 0, pnl := 0 }) :=
  ⟨by decide,
   C4_latest_price_amended demoPos1 "s" "X" 200 1
     { strategy := "s", symbol := "X", direction := "BUY", volume := 1,
       price := 100, float_pnl := 0, pnl := 0 }
     (by decide) rfl (by decide) (by decide) (by decide)⟩

/-- C1: the first partial fill of a confirmed 10-unit Buy-Limit order matches
`min(3, 10 − 0) = 3` units, records one trade, moves the order to
部分成交 (PartiallyTraded) with `traded_volume = 3` — but the second partial
fill of the same order raises `无效状态转换: 部分成交 -> 部分成交`
(the transition table of `_is_valid_status_transition` has no
PartiallyTraded → PartiallyTraded entry), matches nothing and aborts, instead
of completing as the claim states. -/
theorem C1_second_partial_fill_raises :
    (demoMatch1.2.1.map Trade.volume = [3]
      ∧ demoMatch1.2.2 = none
      ∧ (alistLookup demoMatch1.1.orders "ORDER_0_0").map Order.status
          = some OrderStatus.partTraded.value
      ∧ (alistLookup demoMatch1.1.orders "ORDER_0_0").map Order.traded_volume = some 3)
    ∧ demoMatch2.2.1 = []
      ∧ demoMatch2.2.2 = some ("无效状态转换: "
          ++ OrderStatus.partTraded.value ++ " -> " ++ OrderStatus.partTraded.value)
      ∧ (alistLookup demoMatch2.1.orders "ORDER_0_0").map Order.traded_volume = some 3 := by
  decide

/-- C3: cancelling a NotTraded order twice: the first call returns `true` and
moves the order to 撤销中 (Cancelling); the second call raises
`无效状态转换: 撤销中 -> 撤销中` instead of returning `false` (it also bumps
`cancel_requests` to 2 before raising), and the order is left in the
non-terminal Cancelling state, contradicting the claim that the second call
never raises and the order ends in exactly one terminal state. -/
theorem C3_second_cancel_raises :
    exceptOk? demoCancel1.2 = some true
    ∧ (alistLookup demoCancel1.1.orders "ORDER_0_0").map Order.status
        = some OrderStatus.cancelling.value
    ∧ exceptErr? demoCancel2.2 = some ("无效状态转换: "
        ++ OrderStatus.cancelling.value ++ " -> " ++ OrderStatus.cancelling.value)
    ∧ (alistLookup demoCancel2.1.orders "ORDER_0_0").map Order.status
        = some OrderStatus.cancelling.value
    ∧ (alistLookup demoCancel2.1.orders "ORDER_0_0").map Order.cancel_requests = some 2 := by
  decide

/-- C4 counterexample: after two same-direction Buy fills of volume 1 at
prices 100 and 200, the stored position price is 200 (the latest fill price),
not the volume-weighted average 150; the deviation (50) exceeds the claimed
tolerance 1e-9 by any measure. -/
theorem C4_counterexample_latest_price_not_vwap :
    (alistLookup demoPos2.positions (position_key "X" "s")).map PositionData.price
      = some 200
    ∧ |(200 : Rat) - (100 + 200) / 2| > 1 / 1000000000 := by
  constructor
  · decide
  · norm_num

/-- C5 counterexample: with category results (CheckFailed, Consistent,
Consistent, Consistent) — no category Inconsistent — the overall report status
computed by `_perform_all_checks` is PARTIAL_CONSISTENT, not CHECK_FAILED
(a CheckFailed category bumps neither `passed_checks` nor `failed_checks`). -/
theorem C5_counterexample_checkfailed_degrades_to_part :
    overall_status .checkFailed .consistent .consistent .consistent
      = ConsistencyStatus.partConsistent
    ∧ ConsistencyStatus.partConsistent ≠ ConsistencyStatus.checkFailed := by
  decide

/-- C5 amended: the overall status is Inconsistent if any category is
Inconsistent; else Consistent if all four categories are Consistent; else
PartialConsistent — in particular a CheckFailed category (with no
Inconsistent one) degrades the overall status to PartialConsistent, never to
CheckFailed. -/
theorem C5_overall_status_amended (c1 c2 c3 c4 : ConsistencyStatus) :
    ((c1 = .inconsistent ∨ c2 = .inconsistent ∨ c3 = .inconsistent ∨ c4 = .inconsistent) →
      overall_status c1 c2 c3 c4 = .inconsistent)
    ∧ ((c1 = .consistent ∧ c2 = .consistent ∧ c3 = .consistent ∧ c4 = .consistent) →
      overall_status c1 c2 c3 c4 = .consistent)
    ∧ ((¬(c1 = .inconsistent ∨ c2 = .inconsistent ∨ c3 = .inconsistent ∨ c4 = .inconsistent)
        ∧ ¬(c1 = .consistent ∧ c2 = .consistent ∧ c3 = .consistent ∧ c4 = .consistent)) →
      overall_status c1 c2 c3 c4 = .partConsistent) := by
  revert c1 c2 c3 c4
  decide

/-- Witness for C5 amended, at a concrete tuple with an Inconsistent category. -/
theorem C5_overall_status_amended_witness :
    overall_status .inconsistent .checkFailed .consistent .partConsistent
      = ConsistencyStatus.inconsistent :=
  (C5_overall_status_amended .inconsistent .checkFailed .consistent .partConsistent).1
    (Or.inl rfl)

/-- C6 counterexample: `update_account_equity` applied to an account with
`margin = -10` returns a result with `available = 110 > 100 = balance` — the
invariant is violated after the operation, and the update is returned (the
function has no rejection path at all), not rejected with an error. -/
theorem C6_counterexample_violating_update_applied :
    (update_account_equity badAccount 0 0 0).available = 110
    ∧ (update_account_equity badAccount 0 0 0).balance = 100
    ∧ ¬((update_account_equity badAccount 0 0 0).available
        ≤ (update_account_equity badAccount 0 0 0).balance) := by
  refine ⟨by norm_num [update_account_equity, badAccount],
          by norm_num [update_account_equity, badAccount], ?_⟩
  norm_num [update_account_equity, badAccount]

/-- C6 amended: `update_account_equity` never rejects an update; it recomputes
`available` as the new balance minus the (unchanged) margin, so whenever the
input account has `margin ≥ 0` the result satisfies `available ≤ balance` and
`margin ≥ 0`; an input with negative margin yields a violating result that is
returned rather than rejected. -/
theorem C6_invariant_preserved_amended (a : AccountData) (close_pnl position_pnl commission : Rat)
    (h : 0 ≤ a.margin) :
    (update_account_equity a close_pnl position_pnl commission).available
      ≤ (update_account_equity a close_pnl position_pnl commission).balance
    ∧ 0 ≤ (update_account_equity a close_pnl position_pnl commission).margin := by
  constructor
  · simp only [update_account_equity]
    linarith
  · simpa only [update_account_equity] using h

/-- Witness for C6 amended at the spec's initial account. -/
theorem C6_invariant_preserved_amended_witness :
    (0 : Rat) ≤ demoAccount.margin
    ∧ ((update_account_equity demoAccount 1000 500 (25/2)).available
        ≤ (update_account_equity demoAccount 1000 500 (25/2)).balance
      ∧ (0 : Rat) ≤ (update_account_equity demoAccount 1000 500 (25/2)).margin) :=
  ⟨by norm_num [demoAccount],
   C6_invariant_preserved_amended demoAccount 1000 500 (25/2) (by norm_num [demoAccount])⟩

/-- C7 counterexample: applying a fill with commission 12.5 and zero realized
PnL to the 1,000,000 account changes `balance` to 999,987.5 — the code
subtracts commission from `balance` immediately
(`new_balance = balance + close_pnl - commission`), so balance does not remain
1,000,000 as the claim states. -/
theorem C7_counterexample_balance_changes :
    (update_account_equity demoAccount 0 0 (25/2)).balance ≠ 1000000 := by
  norm_num [update_account_equity, demoAccount]

theorem tallyHandler_processed (st : EventStats) (r : Except String Unit) :
    (tallyHandler st r).processed_events
      = st.processed_events + (if isOkResult r then 1 else 0) := by
  cases r <;> simp [tallyHandler, isOkResult]

theorem tallyHandler_failed (st : EventStats) (r : Except String Unit) :
    (tallyHandler st r).failed_events
      = st.failed_events + (if isOkResult r then 0 else 1) := by
  cases r <;> simp [tallyHandler, isOkResult]

theorem dispatchHandlers_spec (ev : EventRec) (hs : List Handler) (st : EventStats) :
    (dispatchHandlers ev hs st).2 = hs.map (fun h => h ev)
    ∧ (dispatchHandlers ev hs st).1.processed_events
        = st.processed_events + (hs.map (fun h => h ev)).countP isOkResult
    ∧ (dispatchHandlers ev hs st).1.failed_events
        = st.failed_events + (hs.map (fun h => h ev)).countP (fun r => !(isOkResult r)) := by
  induction hs generalizing st with
  | nil => simp [dispatchHandlers]
  | cons h rest ih =>
    obtain ⟨ih1, ih2, ih3⟩ := ih (tallyHandler st (h ev))
    refine ⟨?_, ?_, ?_⟩
    · simp [dispatchHandlers, ih1]
    · simp only [dispatchHandlers, List.map_cons, List.countP_cons, ih2,
        tallyHandler_processed]
      by_cases hok : isOkResult (h ev) = true
      · simp only [hok, if_true]
        rw [Nat.add_right_comm, Nat.add_assoc]
      · simp only [Bool.not_eq_true] at hok
        simp [hok]
    · simp only [dispatchHandlers, List.map_cons, List.countP_cons, ih3,
        tallyHandler_failed]
      by_cases hok : isOkResult (h ev) = true
      · simp [hok]
      · simp only [Bool.not_eq_true] at hok
        simp only [hok, Bool.false_eq_true, if_false, Bool.not_false, if_true]
        rw [Nat.add_right_comm, Nat.add_assoc]

/-- C9: the handler loop of `_process_event` invokes every registered handler
in registration order regardless of earlier failures (the outcome list is
exactly the map of the handlers over the event), counts each normal return in
`processed_events` and each caught exception in `failed_events`, and the
consumer loop is a total fold that just continues with the next event — no
handler failure ever escapes to the loop or a publisher. -/
theorem C9_handler_failures_isolated (registry : List (String × List Handler))
    (hs : List Handler) (ev : EventRec) (st : EventStats) :
    (dispatchHandlers ev hs st).2 = hs.map (fun h => h ev)
    ∧ (dispatchHandlers ev hs st).1.processed_events
        = st.processed_events + (hs.map (fun h => h ev)).countP isOkResult
    ∧ (dispatchHandlers ev hs st).1.failed_events
        = st.failed_events + (hs.map (fun h => h ev)).countP (fun r => !(isOkResult r))
    ∧ ∀ (e : EventRec) (evs : List EventRec),
        run_loop registry (e :: evs) st = run_loop registry evs (process_event registry e st).1 := by
  obtain ⟨h1, h2, h3⟩ := dispatchHandlers_spec ev hs st
  exact ⟨h1, h2, h3, fun e evs => by simp [run_loop]⟩

theorem can_match_submitting_false (o : Order) (price : Rat)
    (h : o.status = OrderStatus.submitting.value) : can_match_order o price = false := by
  unfold can_match_order
  rw [h]
  rfl

theorem add_to_queue_orders (m : OrderLifecycleManager) (oid : String) :
    (add_to_queue m oid).orders = m.orders := by
  unfold add_to_queue
  split <;> rfl

theorem add_to_queue_matching (m : OrderLifecycleManager) (oid : String) :
    (add_to_queue m oid).trade_matching = m.trade_matching := by
  unfold add_to_queue
  split <;> rfl

theorem add_to_matching_orders (m : OrderLifecycleManager) (symbol oid : String) :
    (add_to_matching m symbol oid).orders = m.orders := by
  unfold add_to_matching
  cases alistLookup m.trade_matching symbol <;> rfl

theorem remove_from_queue_orders (m : OrderLifecycleManager) (oid : String) :
    (remove_from_queue m oid).orders = m.orders := rfl

theorem remove_from_matching_orders (m : OrderLifecycleManager) (symbol oid : String) :
    (remove_from_matching m symbol oid).orders = m.orders := by
  unfold remove_from_matching
  cases alistLookup m.trade_matching symbol <;> rfl

theorem alistLookup_none_any_false {α : Type} (l : List (String × α)) (k : String)
    (h : alistLookup l k = none) : l.any (fun p => p.1 == k) = false := by
  induction l with
  | nil => rfl
  | cons p ps ih =>
    rw [alistLookup_cons] at h
    cases hpk : (p.1 == k) with
    | true => rw [hpk] at h; simp at h
    | false =>
      rw [hpk] at h
      simp only [Bool.false_eq_true, if_false] at h
      simp [hpk, ih h]

/-- After `_add_to_matching`, the order id is in the symbol's matching list. -/
theorem add_to_matching_mem (m : OrderLifecycleManager) (symbol oid : String) :
    oid ∈ ((alistLookup (add_to_matching m symbol oid).trade_matching symbol).getD []) := by
  unfold add_to_matching
  cases hlk : alistLookup m.trade_matching symbol with
  | none =>
    have hany := alistLookup_none_any_false m.trade_matching symbol hlk
    simp [lookup_append_self m.trade_matching symbol [oid] hany]
  | some ids =>
    simp [alistLookup_alistSet_self]

/-- `update_order_status` never touches any other order's record. -/
theorem update_order_status_lookup_ne (m : OrderLifecycleManager) (oid oid' : String)
    (status : OrderStatus) (tv : Int) (td : Option Trade) (h : oid' ≠ oid) :
    alistLookup ((update_order_status m oid status tv td).1).orders oid'
      = alistLookup m.orders oid' := by
  unfold update_order_status
  cases hlk : alistLookup m.orders oid with
  | none => rfl
  | some o =>
    by_cases hv : is_valid_status_transition o.status status.value
    · simp only [hv, if_true]
      split
      · simp [remove_from_matching_orders, remove_from_queue_orders,
          alistLookup_alistSet_ne _ _ _ _ h]
      · simp [alistLookup_alistSet_ne _ _ _ _ h]
    · simp [hv]

/-- The matching loop neither fills nor modifies an order whose status is
提交中 (Submitting): its record is preserved verbatim and no produced trade
references it. -/
theorem matchLoop_submitting_untouched (symbol : String) (price : Rat) (t : Nat) :
    ∀ (fuel : Nat) (m : OrderLifecycleManager) (i : Nat) (remaining : Int) (acc : List Trade)
      (oid : String) (o : Order),
      alistLookup m.orders oid = some o → o.status = OrderStatus.submitting.value →
      alistLookup ((matchLoop symbol price t fuel m i remaining acc).1).orders oid = some o
      ∧ ∀ td ∈ (matchLoop symbol price t fuel m i remaining acc).2.1,
          td ∈ acc ∨ td.order_id ≠ oid := by
  intro fuel
  induction fuel with
  | zero =>
    intro m i remaining acc oid o hlk _
    exact ⟨hlk, fun td h => Or.inl h⟩
  | succ fuel ih =>
    intro m i remaining acc oid o hlk hst
    simp only [matchLoop]
    by_cases hbound : i < ((alistLookup m.trade_matching symbol).getD []).length
    swap
    · rw [dif_neg hbound]
      exact ⟨hlk, fun td h => Or.inl h⟩
    rw [dif_pos hbound]
    by_cases hrem : remaining ≤ 0
    · simp only [hrem, if_true]
      exact ⟨hlk, fun td h => Or.inl h⟩
    simp only [hrem, if_false]
    set oid0 : String := ((alistLookup m.trade_matching symbol).getD []).get ⟨i, hbound⟩
      with hoid0
    cases hlk0 : alistLookup m.orders oid0 with
    | none => exact ⟨hlk, fun td h => Or.inl h⟩
    | some o0 =>
      by_cases hcm : can_match_order o0 price
      · have hne : oid0 ≠ oid := by
          intro he
          subst he
          rw [hlk0] at hlk
          have ho : o0 = o := by injection hlk
          rw [ho, can_match_submitting_false o price hst] at hcm
          exact absurd hcm (by simp)
        simp only [hcm, if_true]
        by_cases hm : min remaining (o0.volume - o0.traded_volume) > 0
        · simp only [hm, if_true]
          have hpres := update_order_status_lookup_ne m oid0 oid
            (if o0.traded_volume + min remaining (o0.volume - o0.traded_volume) = o0.volume
              then OrderStatus.allTraded else OrderStatus.partTraded)
            (min remaining (o0.volume - o0.traded_volume))
            (some { trade_id := generate_trade_id t, order_id := oid0, symbol := symbol,
                    price := price, volume := min remaining (o0.volume - o0.traded_volume),
                    trade_time := t })
            (fun he => hne he.symm)
          rw [hlk] at hpres
          split
          · rename_i m1 u heq
            have hm1 : alistLookup m1.orders oid = some o := by
              rw [heq] at hpres
              exact hpres
            obtain ⟨r1, r2⟩ := ih m1 (i + 1)
              (remaining - min remaining (o0.volume - o0.traded_volume))
              (acc ++ [{ trade_id := generate_trade_id t, order_id := oid0, symbol := symbol,
                         price := price, volume := min remaining (o0.volume - o0.traded_volume),
                         trade_time := t }]) oid o hm1 hst
            refine ⟨r1, fun td hmem => ?_⟩
            rcases r2 td hmem with hin | hneq
            · rcases List.mem_append.mp hin with hin' | hin'
              · exact Or.inl hin'
              · simp only [List.mem_singleton] at hin'
                subst hin'
                exact Or.inr hne
            · exact Or.inr hneq
          · rename_i m1 e heq
            have hm1 : alistLookup m1.orders oid = some o := by
              rw [heq] at hpres
              exact hpres
            exact ⟨hm1, fun td h => Or.inl h⟩
        · simp only [hm, if_false]
          exact ih m (i + 1) remaining acc oid o hlk hst
      · simp only [hcm, if_false]
        exact ih m (i + 1) remaining acc oid o hlk hst

/-- C10: an order freshly created by `create_order` has status 提交中
(Submitting) and is already in the symbol's matching index, yet
`match_trade` — for any symbol, price, volume and time — never produces a
trade for it and leaves its record verbatim unchanged, because
`_can_match_order` only admits 未成交/部分成交 orders. -/
theorem C10_fresh_order_not_matchable (m : OrderLifecycleManager) (s d : String) (p : Rat)
    (v : Int) (strat ot : String) (t : Nat) (s' : String) (p' : Rat) (v' : Int) (t' : Nat) :
    ((alistLookup (create_order m s d p v strat ot t).1.orders
        (create_order m s d p v strat ot t).2).map Order.status
      = some OrderStatus.submitting.value)
    ∧ (create_order m s d p v strat ot t).2
        ∈ ((alistLookup (create_order m s d p v strat ot t).1.trade_matching s).getD [])
    ∧ (∀ td ∈ (match_trade (create_order m s d p v strat ot t).1 s' p' v' t').2.1,
        td.order_id ≠ (create_order m s d p v strat ot t).2)
    ∧ alistLookup (match_trade (create_order m s d p v strat ot t).1 s' p' v' t').1.orders
        (create_order m s d p v strat ot t).2
      = alistLookup (create_order m s d p v strat ot t).1.orders
          (create_order m s d p v strat ot t).2 := by
  set oid := generate_order_id t m.orders.length with hoid
  set od : Order :=
    { order_id := oid, symbol := s, direction := d, price := p,
      volume := v, traded_volume := 0, order_type := ot,
      status := OrderStatus.submitting.value, strategy := strat,
      trade_records := [], cancel_requests := 0, cancel_reason := "" } with hod
  have hco : create_order m s d p v strat ot t
      = (add_to_matching (add_to_queue { m with orders := alistSet m.orders oid od } oid) s oid,
         oid) := rfl
  have horders : (create_order m s d p v strat ot t).1.orders = alistSet m.orders oid od := by
    rw [hco]
    simp [add_to_matching_orders, add_to_queue_orders]
  have hlkf : alistLookup (create_order m s d p v strat ot t).1.orders
      (create_order m s d p v strat ot t).2 = some od := by
    rw [horders, hco]
    exact alistLookup_alistSet_self m.orders oid od
  have hmem : (create_order m s d p v strat ot t).2
      ∈ ((alistLookup (create_order m s d p v strat ot t).1.trade_matching s).getD []) := by
    rw [hco]
    simpa [add_to_queue_matching] using
      add_to_matching_mem (add_to_queue { m with orders := alistSet m.orders oid od } oid) s oid
  have hmain := matchLoop_submitting_untouched s' p' t'
    ((alistLookup (create_order m s d p v strat ot t).1.trade_matching s').getD []).length
    (create_order m s d p v strat ot t).1 0 v' []
    (create_order m s d p v strat ot t).2 od hlkf rfl
  refine ⟨by rw [hlkf]; rfl, hmem, ?_, ?_⟩
  · intro td hmemtd
    rcases hmain.2 td hmemtd with hin | hneq
    · simp at hin
    · exact hneq
  · rw [hlkf]
    exact hmain.1

theorem entryLe_refl (a : QueueEntry) : entryLe a a = true := by
  simp [entryLe]

theorem entryLe_total (a b : QueueEntry) : entryLe a b = true ∨ entryLe b a = true := by
  simp only [entryLe, Bool.or_eq_true, Bool.and_eq_true, Nat.blt_eq, Nat.ble_eq, beq_iff_eq]
  omega

theorem entryLe_trans {a b c : QueueEntry} (h1 : entryLe a b = true) (h2 : entryLe b c = true) :
    entryLe a c = true := by
  simp only [entryLe, Bool.or_eq_true, Bool.and_eq_true, Nat.blt_eq, Nat.ble_eq,
    beq_iff_eq] at h1 h2 ⊢
  omega

/-- The extracted entry is a minimum of the queue. -/
theorem extractMin_le (x : QueueEntry) (l : List QueueEntry) :
    entryLe (extractMin x l).1 x = true ∧ ∀ e ∈ l, entryLe (extractMin x l).1 e = true := by
  induction l generalizing x with
  | nil => exact ⟨entryLe_refl x, by simp⟩
  | cons y ys ih =>
    obtain ⟨ihy, ihall⟩ := ih y
    simp only [extractMin]
    by_cases hc : entryLe x (extractMin y ys).1 = true
    · rw [if_pos hc]
      refine ⟨entryLe_refl x, ?_⟩
      intro e he
      rcases List.mem_cons.mp he with rfl | he'
      · exact entryLe_trans hc ihy
      · exact entryLe_trans hc (ihall e he')
    · rw [if_neg hc]
      have hm : entryLe (extractMin y ys).1 x = true := by
        rcases entryLe_total x (extractMin y ys).1 with h | h
        · exact absurd h hc
        · exact h
      refine ⟨hm, ?_⟩
      intro e he
      rcases List.mem_cons.mp he with rfl | he'
      · exact ihy
      · exact ihall e he'

/-- Extraction only rearranges the queue. -/
theorem extractMin_perm (x : QueueEntry) (l : List QueueEntry) :
    (x :: l).Perm ((extractMin x l).1 :: (extractMin x l).2) := by
  induction l generalizing x with
  | nil => simp [extractMin]
  | cons y ys ih =>
    simp only [extractMin]
    by_cases hc : entryLe x (extractMin y ys).1 = true
    · rw [if_pos hc]
    · rw [if_neg hc]
      exact ((ih y).cons x).trans (List.Perm.swap _ _ _)

theorem drain_permAux : ∀ (n : Nat) (l : List QueueEntry), l.length ≤ n → (drain l).Perm l := by
  intro n
  induction n with
  | zero =>
    intro l h
    cases l with
    | nil => simp [drain]
    | cons x xs => simp at h
  | succ n ih =>
    intro l h
    cases l with
    | nil => simp [drain]
    | cons x xs =>
      simp only [drain]
      have hlen : (extractMin x xs).2.length ≤ n := by
        rw [extractMin_length]
        simpa using h
      exact ((ih _ hlen).cons _).trans (extractMin_perm x xs).symm

/-- The dequeue order is a permutation of the queued entries. -/
theorem drain_perm (l : List QueueEntry) : (drain l).Perm l :=
  drain_permAux l.length l le_rfl

theorem drain_sortedAux : ∀ (n : Nat) (l : List QueueEntry), l.length ≤ n →
    List.Sorted entryR (drain l) := by
  intro n
  induction n with
  | zero =>
    intro l h
    cases l with
    | nil => simp [drain]
    | cons x xs => simp at h
  | succ n ih =>
    intro l h
    cases l with
    | nil => simp [drain]
    | cons x xs =>
      simp only [drain]
      have hlen : (extractMin x xs).2.length ≤ n := by
        rw [extractMin_length]
        simpa using h
      rw [List.sorted_cons]
      refine ⟨?_, ih _ hlen⟩
      intro b hb
      have hbrest : b ∈ (extractMin x xs).2 := (drain_permAux n _ hlen).mem_iff.mp hb
      have hbl : b ∈ x :: xs :=
        (extractMin_perm x xs).symm.mem_iff.mp (List.mem_cons_of_mem _ hbrest)
      obtain ⟨h1, h2⟩ := extractMin_le x xs
      rcases List.mem_cons.mp hbl with rfl | hb'
      · exact h1
      · exact h2 b hb'

/-- The dequeue order is sorted by the lexicographic `(priority, sequence)`
comparison. -/
theorem drain_sorted (l : List QueueEntry) : List.Sorted entryR (drain l) :=
  drain_sortedAux l.length l le_rfl

/-- Draining an already lexicographically sorted queue returns it verbatim. -/
theorem drain_eq_of_sorted (l : List QueueEntry) (h : List.Sorted entryR l) : drain l = l :=
  List.eq_of_perm_of_sorted (drain_perm l) (drain_sorted l) h

theorem enumFrom_cons_eq {α : Type} (n : Nat) (a : α) (l : List α) :
    List.enumFrom n (a :: l) = (n, a) :: List.enumFrom (n + 1) l := rfl

/-- `put` makes the queue record the events in publish order with consecutive
sequence numbers, starting at the current timer value. -/
theorem enginePutAll_spec : ∀ (ps : List Nat) (q : EngineQueue),
    (enginePutAll q ps).entries
        = q.entries ++ (List.enumFrom q.timer ps).map (fun e => (e.2, e.1))
    ∧ (enginePutAll q ps).timer = q.timer + ps.length := by
  intro ps
  induction ps with
  | nil => intro q; simp [enginePutAll]
  | cons p rest ih =>
    intro q
    obtain ⟨ih1, ih2⟩ := ih (enginePut q p)
    have hfold : enginePutAll q (p :: rest) = enginePutAll (enginePut q p) rest := rfl
    constructor
    · rw [hfold, ih1, enumFrom_cons_eq]
      simp [enginePut, List.append_assoc]
    · rw [hfold, ih2]
      simp [enginePut]
      omega

theorem mem_enum_entries : ∀ (ps : List Nat) (k : Nat) (e : QueueEntry),
    e ∈ (List.enumFrom k ps).map (fun x => (x.2, x.1)) → k ≤ e.2 := by
  intro ps
  induction ps with
  | nil => intro k e he; simp at he
  | cons p rest ih =>
    intro k e he
    rw [enumFrom_cons_eq, List.map_cons, List.mem_cons] at he
    rcases he with rfl | he'
    · exact le_refl k
    · exact Nat.le_of_succ_le (ih (k + 1) e he')

theorem mem_replicate_entries_fst : ∀ (n k p : Nat) (e : QueueEntry),
    e ∈ (List.enumFrom k (List.replicate n p)).map (fun x => (x.2, x.1)) → e.1 = p := by
  intro n
  induction n with
  | zero => intro k p e he; simp at he
  | succ n ih =>
    intro k p e he
    rw [List.replicate_succ, enumFrom_cons_eq, List.map_cons, List.mem_cons] at he
    rcases he with rfl | he'
    · rfl
    · exact ih (k + 1) p e he' 

/-- The queued entries are pairwise distinct (their sequence numbers are). -/
theorem entries_nodup : ∀ (ps : List Nat) (k : Nat),
    ((List.enumFrom k ps).map (fun e => (e.2, e.1))).Nodup := by
  intro ps
  induction ps with
  | nil => intro k; simp
  | cons p rest ih =>
    intro k
    rw [enumFrom_cons_eq, List.map_cons, List.nodup_cons]
    refine ⟨?_, ih (k + 1)⟩
    intro hmem
    have := mem_enum_entries rest (k + 1) (p, k) hmem
    omega

theorem sorted_replicate_entries : ∀ (n k p : Nat),
    List.Sorted entryR ((List.enumFrom k (List.replicate n p)).map (fun e => (e.2, e.1))) := by
  intro n
  induction n with
  | zero => intro k p; simp
  | succ n ih =>
    intro k p
    rw [List.replicate_succ, enumFrom_cons_eq, List.map_cons, List.sorted_cons]
    refine ⟨?_, ih (k + 1) p⟩
    intro b hb
    have hk := mem_enum_entries (List.replicate n p) (k + 1) b hb
    have hp : b.1 = p := mem_replicate_entries_fst n (k + 1) p b hb
    simp only [entryR, entryLe, Bool.or_eq_true, Bool.and_eq_true, Nat.blt_eq, Nat.ble_eq,
      beq_iff_eq, hp]
    exact Or.inr ⟨trivial, by omega⟩

/-- In a sorted duplicate-free list, a strictly smaller element sits at a
strictly smaller position. -/
theorem sorted_posIn_lt : ∀ (l : List QueueEntry), List.Sorted entryR l → l.Nodup →
    ∀ a b, a ∈ l → b ∈ l → entryLe a b = true → a ≠ b → posIn l a < posIn l b := by
  intro l
  induction l with
  | nil => intro _ _ a b ha; simp at ha
  | cons x xs ih =>
    intro hs hn a b ha hb hle hne
    rw [List.sorted_cons] at hs
    rw [List.nodup_cons] at hn
    rcases List.mem_cons.mp ha with rfl | ha'
    · rcases List.mem_cons.mp hb with rfl | hb'
      · exact absurd rfl hne
      · simp only [posIn, if_pos rfl, if_neg hne]
        exact Nat.succ_pos _
    · have hax : x ≠ a := fun he => hn.1 (he ▸ ha')
      rcases List.mem_cons.mp hb with rfl | hb'
      · have hba : entryR b a := hs.1 a ha'
        exact absurd (antisymm (r := entryR) hle hba) hne
      · have hbx : x ≠ b := fun he => hn.1 (he ▸ hb')
        simp only [posIn, if_neg hax, if_neg hbx]
        exact Nat.succ_lt_succ (ih hs.2 hn.2 a b ha' hb' hle hne)

/-- C8: events enqueued by `put` carry `(priority value, sequence counter)`
with the sequence counter increasing by one per put; dequeue order (`drain`)
is the lexicographic order on these pairs — a sorted permutation of the queue;
an entry of a smaller priority value is dequeued before any entry of a larger
one; entries of equal priority are dequeued in publish (sequence) order; and
publishing events of one single priority drains them in exactly the publish
order. -/
theorem C8_priority_fifo (ps : List Nat) :
    (enginePutAll EngineQueue.empty ps).entries
        = (List.enumFrom 0 ps).map (fun e => (e.2, e.1))
    ∧ (enginePutAll EngineQueue.empty ps).timer = ps.length
    ∧ List.Sorted entryR (drain (enginePutAll EngineQueue.empty ps).entries)
    ∧ (drain (enginePutAll EngineQueue.empty ps).entries).Perm
        (enginePutAll EngineQueue.empty ps).entries
    ∧ (∀ a b : QueueEntry, a ∈ (enginePutAll EngineQueue.empty ps).entries →
        b ∈ (enginePutAll EngineQueue.empty ps).entries → a.1 < b.1 →
        posIn (drain (enginePutAll EngineQueue.empty ps).entries) a
          < posIn (drain (enginePutAll EngineQueue.empty ps).entries) b)
    ∧ (∀ a b : QueueEntry, a ∈ (enginePutAll EngineQueue.empty ps).entries →
        b ∈ (enginePutAll EngineQueue.empty ps).entries → a.1 = b.1 → a.2 < b.2 →
        posIn (drain (enginePutAll EngineQueue.empty ps).entries) a
          < posIn (drain (enginePutAll EngineQueue.empty ps).entries) b)
    ∧ (∀ (n p : Nat), drain (enginePutAll EngineQueue.empty (List.replicate n p)).entries
        = (enginePutAll EngineQueue.empty (List.replicate n p)).entries) := by
  obtain ⟨hent, htim⟩ := enginePutAll_spec ps EngineQueue.empty
  have hent' : (enginePutAll EngineQueue.empty ps).entries
      = (List.enumFrom 0 ps).map (fun e => (e.2, e.1)) := by
    simpa [EngineQueue.empty] using hent
  have hnodup : (enginePutAll EngineQueue.empty ps).entries.Nodup := by
    rw [hent']
    exact entries_nodup ps 0
  have hsorted := drain_sorted (enginePutAll EngineQueue.empty ps).entries
  have hperm := drain_perm (enginePutAll EngineQueue.empty ps).entries
  have hdnodup : (drain (enginePutAll EngineQueue.empty ps).entries).Nodup :=
    hperm.nodup_iff.mpr hnodup
  refine ⟨hent', by simpa [EngineQueue.empty] using htim, hsorted, hperm, ?_, ?_, ?_⟩
  · intro a b ha hb hlt
    have hle : entryLe a b = true := by
      simp only [entryLe, Bool.or_eq_true, Bool.and_eq_true, Nat.blt_eq, Nat.ble_eq,
        beq_iff_eq]
      omega
    have hne : a ≠ b := fun he => by rw [he] at hlt; omega
    exact sorted_posIn_lt _ hsorted hdnodup a b (hperm.mem_iff.mpr ha)
      (hperm.mem_iff.mpr hb) hle hne
  · intro a b ha hb heq hlt
    have hle : entryLe a b = true := by
      simp only [entryLe, Bool.or_eq_true, Bool.and_eq_true, Nat.blt_eq, Nat.ble_eq,
        beq_iff_eq]
      omega
    have hne : a ≠ b := fun he => by rw [he] at hlt; omega
    exact sorted_posIn_lt _ hsorted hdnodup a b (hperm.mem_iff.mpr ha)
      (hperm.mem_iff.mpr hb) hle hne
  · intro n p
    obtain ⟨he, _⟩ := enginePutAll_spec (List.replicate n p) EngineQueue.empty
    have he' : (enginePutAll EngineQueue.empty (List.replicate n p)).entries
        = (List.enumFrom 0 (List.replicate n p)).map (fun e => (e.2, e.1)) := by
      simpa [EngineQueue.empty] using he
    rw [he']
    exact drain_eq_of_sorted _ (sorted_replicate_entries n 0 p)

/-- Witness for C8 at the publish sequence [2, 1]: the later-published but
higher-priority entry `(1, 1)` is dequeued before `(2, 0)`. -/
theorem C8_priority_fifo_witness :
    posIn (drain (enginePutAll EngineQueue.empty [2, 1]).entries) ((1, 1) : QueueEntry)
      < posIn (drain (enginePutAll EngineQueue.empty [2, 1]).entries) ((2, 0) : QueueEntry) :=
  (C8_priority_fifo [2, 1]).2.2.2.2.1 (1, 1) (2, 0) (by decide) (by decide) (by decide)

/-- C7 amended: the fill with commission 12.5 and zero realized PnL yields
`available = 999987.5` and cumulative `commission = 12.5`, and `balance` also
becomes 999987.5, because commission is deducted from balance at once. -/
theorem C7_commission_fill_amended :
    (update_account_equity demoAccount 0 0 (25/2)).available = 1999975 / 2
    ∧ (update_account_equity demoAccount 0 0 (25/2)).commission = 25 / 2
    ∧ (update_account_equity demoAccount 0 0 (25/2)).balance = 1999975 / 2
    ∧ (update_account_equity demoAccount 0 0 (25/2)).close_profit = 0 := by
  refine ⟨?_, ?_, ?_, ?_⟩ <;> norm_num [update_account_equity, demoAccount]

end TradeCore
